import Mathlib

set_option maxHeartbeats 1000000

/-! Shallow embedding of `example/tutorial/Algorithms/01_random_numbers/random_numbers.cpp`
(Kokkos tutorial: pooled random-number generation benchmark).

The file embeds:
* the output buffer `vals` (a rows × samples `View` of scalars, with `none` marking a
  never-written entry),
* the generator pool (`get_state` / `free_state`; the pool internals are external
  library code, modelled from the spec),
* the functor `generate_random::operator()(int i)`, instrumented with an event trace
  (acquire / write / release),
* the sequential semantics of one `parallel_for` fill over a list of work indices,
* the control flow of `main` as an event trace, together with the sequence of buffer
  fills it performs. -/

/-- The output buffer `vals`: entry `(r, c)` is `none` while uninitialized and
`some v` once written.  The C++ scalar type `double` is abstracted to `α`. -/
abbrev Buf (α : Type) := Nat → Nat → Option α

/-- One store `vals(i, k) = v`. -/
def writeBuf {α : Type} (b : Buf α) (i k : Nat) (v : α) : Buf α :=
  fun r c => if r = i ∧ c = k then some v else b r c

/-- Modelled from the spec: the generator pool
(`Kokkos::Random_XorShift64_Pool` / `Random_XorShift1024_Pool`; the pool internals are
external library code, not under `src/`).  A family of generator states indexed by
slot, each with a `locked` flag marking a state that is currently checked out.
`normal` is the abstract normally-distributed draw: it returns the drawn value and the
advanced generator state. -/
@[ext]
structure GenPool (σ α : Type) where
  normal : σ → α × σ
  states : Nat → σ
  locked : Nat → Bool

/-- Modelled from the spec: `get_state` checks out the generator state of `slot`,
excluding it from concurrent reuse; a slot that is already held cannot be acquired. -/
def GenPool.get_state {σ α : Type} (p : GenPool σ α) (slot : Nat) :
    Option (σ × GenPool σ α) :=
  if p.locked slot then none
  else some (p.states slot,
    { p with locked := fun j => if j = slot then true else p.locked j })

/-- Modelled from the spec: `free_state` returns the advanced generator state to its
slot and releases the slot for other tasks. -/
def GenPool.free_state {σ α : Type} (p : GenPool σ α) (slot : Nat) (g : σ) :
    GenPool σ α :=
  { p with
    states := fun j => if j = slot then g else p.states j,
    locked := fun j => if j = slot then false else p.locked j }

/-- Observable events of one functor invocation. -/
inductive Event (α : Type) where
  | acquire (slot : Nat)
  | write (r c : Nat) (v : α)
  | release (slot : Nat)
deriving DecidableEq

/-- Whether an event is an acquisition of a pool state. -/
def Event.isAcquire {α : Type} : Event α → Bool
  | .acquire _ => true
  | _ => false

/-- Whether an event is a release of a pool state. -/
def Event.isRelease {α : Type} : Event α → Bool
  | .release _ => true
  | _ => false

/-- Whether an event is a buffer write. -/
def Event.isWrite {α : Type} : Event α → Bool
  | .write _ _ _ => true
  | _ => false

/-- The buffer cell touched by a write event. -/
def cellOf {α : Type} : Event α → Option (Nat × Nat)
  | .write r c _ => some (r, c)
  | _ => none

/-- The cells written during a trace. -/
def writeCells {α : Type} (tr : List (Event α)) : List (Nat × Nat) :=
  tr.filterMap cellOf

/-- The generator state after `n` draws. -/
def iterState {σ α : Type} (normal : σ → α × σ) : Nat → σ → σ
  | 0, g => g
  | n + 1, g => iterState normal n (normal g).2

/-- The `m`-th value drawn from generator state `g` (0-based). -/
def nthVal {σ α : Type} (normal : σ → α × σ) (g : σ) (m : Nat) : α :=
  (normal (iterState normal m g)).1

/-- The loop `for (int k = 0; k < samples; k++) vals(i, k) = rand_gen.normal();`,
started at column `k` with `n` draws remaining; also records the write events. -/
def drawFrom {σ α : Type} (normal : σ → α × σ) (i : Nat) :
    Nat → Nat → σ → Buf α → List (Event α) → σ × Buf α × List (Event α)
  | _, 0, g, b, evs => (g, b, evs)
  | k, n + 1, g, b, evs =>
      drawFrom normal i (k + 1) n (normal g).2 (writeBuf b i k (normal g).1)
        (evs ++ [Event.write i k (normal g).1])

/-- `generate_random::operator()(int i)`: acquire a generator state from the pool slot
`slot`, draw `samples` values into row `i` of `vals`, release the state.  Returns the
updated buffer, the updated pool, and the event trace; `none` when the slot is held
(the real `get_state` would spin until it frees). -/
def generate_random_op {σ α : Type} (samples : Nat) (pool : GenPool σ α)
    (slot i : Nat) (vals : Buf α) :
    Option (Buf α × GenPool σ α × List (Event α)) :=
  match pool.get_state slot with
  | none => none
  | some (g, pool1) =>
      let d := drawFrom pool.normal i 0 samples g vals []
      some (d.2.1, pool1.free_state slot d.1,
        Event.acquire slot :: d.2.2 ++ [Event.release slot])

/-- One work item of the parallel fill, acting on the shared buffer/pool state.
`asg` is the (fixed, non-contention-based) assignment of work index to pool slot. -/
def fillStep {σ α : Type} (samples : Nat) (asg : Nat → Nat) (i : Nat)
    (st : Buf α × GenPool σ α) : Option (Buf α × GenPool σ α) :=
  match generate_random_op samples st.2 (asg i) i st.1 with
  | none => none
  | some d => some (d.1, d.2.1)

/-- One `parallel_for(policy, generate_random(...))` fill, executed over the work
indices `idxs` in the given order. -/
def seqFill {σ α : Type} (samples : Nat) (asg : Nat → Nat) :
    List Nat → Buf α × GenPool σ α → Option (Buf α × GenPool σ α)
  | [], st => some st
  | i :: rest, st => (fillStep samples asg i st).bind (seqFill samples asg rest)

/-- The two pool variants of the benchmark. -/
inductive PoolKind where
  | p64
  | p1024
deriving DecidableEq

/-- Observable steps of `main`. -/
inductive MainEvent where
  | initK
  | printUsage
  | printBackend
  | parseArg (n : Nat)
  | mkPool (k : PoolKind) (seed : Nat)
  | allocView (rows cols : Nat)
  | launchFill (k : PoolKind)
  | fence
  | timerReset
  | timerSeconds (k : PoolKind)
  | printTime (k : PoolKind)
  | finalizeK
deriving DecidableEq

/-- The trace of `main`, as a function of `argc` and the two parsed integers. -/
def mainTrace (argc rows cols : Nat) : List MainEvent :=
  MainEvent.initK ::
    (if argc = 3 then
      [MainEvent.printBackend,
       MainEvent.parseArg 1, MainEvent.parseArg 2,
       MainEvent.mkPool PoolKind.p64 5374857,
       MainEvent.mkPool PoolKind.p1024 5374857,
       MainEvent.allocView rows cols,
       MainEvent.launchFill PoolKind.p64, MainEvent.fence,
       MainEvent.launchFill PoolKind.p64, MainEvent.fence,
       MainEvent.launchFill PoolKind.p64, MainEvent.fence,
       MainEvent.launchFill PoolKind.p64, MainEvent.fence,
       MainEvent.launchFill PoolKind.p64, MainEvent.fence,
       MainEvent.timerReset,
       MainEvent.launchFill PoolKind.p64, MainEvent.fence,
       MainEvent.timerSeconds PoolKind.p64,
       MainEvent.launchFill PoolKind.p1024, MainEvent.fence,
       MainEvent.timerReset,
       MainEvent.launchFill PoolKind.p1024, MainEvent.fence,
       MainEvent.timerSeconds PoolKind.p1024,
       MainEvent.printTime PoolKind.p64,
       MainEvent.printTime PoolKind.p1024]
     else [MainEvent.printUsage]) ++ [MainEvent.finalizeK]

/-- The exit code of `main` (`return 0;` on every path). -/
def mainExit (_argc : Nat) : Nat := 0

/-- The line a step prints to standard output, if any.  `name` is the execution
space name, `t64` / `t1024` the rendered elapsed seconds. -/
def renderLine (name t64 t1024 : String) : MainEvent → Option String
  | MainEvent.printUsage => some "Please pass two integers on the command line"
  | MainEvent.printBackend => some ("Exec space: " ++ name)
  | MainEvent.printTime PoolKind.p64 => some ("Time 64: " ++ t64)
  | MainEvent.printTime PoolKind.p1024 => some ("Time 1024: " ++ t1024)
  | _ => none

/-- The standard-output lines of a trace. -/
def stdoutLines (name t64 t1024 : String) (tr : List MainEvent) : List String :=
  tr.filterMap (renderLine name t64 t1024)

/-- Whether an event is `parseArg 2` (parsing of the second integer). -/
def MainEvent.isParse2 : MainEvent → Bool
  | .parseArg 2 => true
  | _ => false

/-- Whether an event is the buffer allocation. -/
def MainEvent.isAlloc : MainEvent → Bool
  | .allocView _ _ => true
  | _ => false

/-- Whether an event is the construction of the 64-bit pool. -/
def MainEvent.isMk64 : MainEvent → Bool
  | .mkPool PoolKind.p64 _ => true
  | _ => false

/-- Whether an event is the construction of the 1024-bit pool. -/
def MainEvent.isMk1024 : MainEvent → Bool
  | .mkPool PoolKind.p1024 _ => true
  | _ => false

/-- Whether an event is a fill launch with the 64-bit pool. -/
def MainEvent.isFill64 : MainEvent → Bool
  | .launchFill PoolKind.p64 => true
  | _ => false

/-- Whether an event is a fill launch with the 1024-bit pool. -/
def MainEvent.isFill1024 : MainEvent → Bool
  | .launchFill PoolKind.p1024 => true
  | _ => false

/-- Whether an event is a timer reset. -/
def MainEvent.isReset : MainEvent → Bool
  | .timerReset => true
  | _ => false

/-- The order of operations claimed by the spec (definition follows the spec's words,
for comparison with `mainTrace`): initialization first; parsing, then buffer
allocation, then construction of the two pools; five untimed warm-up fills with the
64-bit pool before the first timer reset and six 64-bit fills in total; a single fill
with the 1024-bit pool; teardown last. -/
def ClaimedOrderC7 (rows cols : Nat) : Prop :=
  (mainTrace 3 rows cols).head? = some MainEvent.initK ∧
  (mainTrace 3 rows cols).findIdx MainEvent.isParse2 <
    (mainTrace 3 rows cols).findIdx MainEvent.isAlloc ∧
  (mainTrace 3 rows cols).findIdx MainEvent.isAlloc <
    (mainTrace 3 rows cols).findIdx MainEvent.isMk64 ∧
  (mainTrace 3 rows cols).findIdx MainEvent.isMk64 <
    (mainTrace 3 rows cols).findIdx MainEvent.isMk1024 ∧
  (mainTrace 3 rows cols).findIdx MainEvent.isMk1024 <
    (mainTrace 3 rows cols).findIdx MainEvent.isFill64 ∧
  ((mainTrace 3 rows cols).takeWhile
      (fun e => !MainEvent.isReset e)).countP MainEvent.isFill64 = 5 ∧
  (mainTrace 3 rows cols).countP MainEvent.isFill64 = 6 ∧
  (mainTrace 3 rows cols).countP MainEvent.isFill1024 = 1 ∧
  (mainTrace 3 rows cols).getLast? = some MainEvent.finalizeK

/-- The order of operations as the code performs them: as claimed, except that both
pools are constructed before the buffer is allocated, and the 1024-bit pool is used
for two fills (one untimed, one timed). -/
def AmendedOrderC7 (rows cols : Nat) : Prop :=
  (mainTrace 3 rows cols).head? = some MainEvent.initK ∧
  (mainTrace 3 rows cols).findIdx MainEvent.isParse2 <
    (mainTrace 3 rows cols).findIdx MainEvent.isMk64 ∧
  (mainTrace 3 rows cols).findIdx MainEvent.isMk64 <
    (mainTrace 3 rows cols).findIdx MainEvent.isMk1024 ∧
  (mainTrace 3 rows cols).findIdx MainEvent.isMk1024 <
    (mainTrace 3 rows cols).findIdx MainEvent.isAlloc ∧
  (mainTrace 3 rows cols).findIdx MainEvent.isAlloc <
    (mainTrace 3 rows cols).findIdx MainEvent.isFill64 ∧
  ((mainTrace 3 rows cols).takeWhile
      (fun e => !MainEvent.isReset e)).countP MainEvent.isFill64 = 5 ∧
  (mainTrace 3 rows cols).countP MainEvent.isFill64 = 6 ∧
  (mainTrace 3 rows cols).countP MainEvent.isFill1024 = 2 ∧
  (mainTrace 3 rows cols).getLast? = some MainEvent.finalizeK

/-- The mutable state of `main`'s computation: the single output buffer and the two
pools (of different state widths `σ` and `τ`). -/
structure MainSt (σ τ α : Type) where
  buf : Buf α
  pool64 : GenPool σ α
  pool1024 : GenPool τ α

/-- One fill of the buffer using the 64-bit pool. -/
def fill64 {σ τ α : Type} (samples size : Nat) (asg : Nat → Nat)
    (st : MainSt σ τ α) : Option (MainSt σ τ α) :=
  (seqFill samples asg (List.range size) (st.buf, st.pool64)).map
    fun o => { st with buf := o.1, pool64 := o.2 }

/-- One fill of the buffer using the 1024-bit pool. -/
def fill1024 {σ τ α : Type} (samples size : Nat) (asg : Nat → Nat)
    (st : MainSt σ τ α) : Option (MainSt σ τ α) :=
  (seqFill samples asg (List.range size) (st.buf, st.pool1024)).map
    fun o => { st with buf := o.1, pool1024 := o.2 }

/-- The first seven fills of `main`: five warm-ups and one timed fill with the 64-bit
pool, then the untimed fill with the 1024-bit pool. -/
def firstSevenFills {σ τ α : Type} (samples size : Nat) (asg : Nat → Nat)
    (st : MainSt σ τ α) : Option (MainSt σ τ α) :=
  ((((((fill64 samples size asg st).bind
    (fill64 samples size asg)).bind
    (fill64 samples size asg)).bind
    (fill64 samples size asg)).bind
    (fill64 samples size asg)).bind
    (fill64 samples size asg)).bind
    (fill1024 samples size asg)

/-- All eight fills of `main`, in program order, threaded through the single buffer. -/
def mainBufferRun {σ τ α : Type} (samples size : Nat) (asg : Nat → Nat)
    (st : MainSt σ τ α) : Option (MainSt σ τ α) :=
  (firstSevenFills samples size asg st).bind (fill1024 samples size asg)

/-- A concrete pool for witnesses: state `Nat`, drawn values `Nat`. -/
def demoPool : GenPool Nat Nat :=
  { normal := fun g => (g, g + 1), states := fun j => j, locked := fun _ => false }

/-- A fully uninitialized concrete buffer. -/
def demoBuf : Buf Nat := fun _ _ => none

/-- A second concrete buffer, differing from `demoBuf` everywhere. -/
def demoBuf2 : Buf Nat := fun _ _ => some 7

/-- A concrete `main` state for witnesses. -/
def demoSt : MainSt Nat Nat Nat :=
  { buf := demoBuf, pool64 := demoPool, pool1024 := demoPool }

/-- A second concrete `main` state, with a different initial buffer. -/
def demoSt2 : MainSt Nat Nat Nat :=
  { buf := demoBuf2, pool64 := demoPool, pool1024 := demoPool }

/-! ### Characterization of the draw loop -/

theorem drawFrom_fst {σ α : Type} (normal : σ → α × σ) (i : Nat) :
    ∀ (n k : Nat) (g : σ) (b : Buf α) (evs : List (Event α)),
      (drawFrom normal i k n g b evs).1 = iterState normal n g := by
  intro n
  induction n with
  | zero => intro k g b evs; rfl
  | succ n ih => intro k g b evs; simp [drawFrom, iterState, ih]

theorem nthVal_succ {σ α : Type} (normal : σ → α × σ) (g : σ) (m : Nat) :
    nthVal normal g (m + 1) = nthVal normal (normal g).2 m := rfl

theorem drawFrom_buf {σ α : Type} (normal : σ → α × σ) (i : Nat) :
    ∀ (n k : Nat) (g : σ) (b : Buf α) (evs : List (Event α)) (r c : Nat),
      (drawFrom normal i k n g b evs).2.1 r c =
        if r = i ∧ k ≤ c ∧ c < k + n then some (nthVal normal g (c - k)) else b r c := by
  intro n
  induction n with
  | zero =>
    intro k g b evs r c
    rw [if_neg]
    · rfl
    · rintro ⟨_, h1, h2⟩; omega
  | succ n ih =>
    intro k g b evs r c
    have hstep : (drawFrom normal i k (n + 1) g b evs).2.1 r c =
        (drawFrom normal i (k + 1) n (normal g).2
          (writeBuf b i k (normal g).1) (evs ++ [Event.write i k (normal g).1])).2.1 r c := rfl
    rw [hstep, ih]
    by_cases hr : r = i
    · subst hr
      by_cases hk : c = k
      · subst hk
        rw [if_neg (by omega), if_pos ⟨rfl, by omega, by omega⟩]
        simp [writeBuf, nthVal, iterState]
      · by_cases hin : k + 1 ≤ c ∧ c < k + 1 + n
        · rw [if_pos ⟨rfl, hin.1, hin.2⟩, if_pos ⟨rfl, by omega, by omega⟩]
          have hc : c - k = (c - (k + 1)) + 1 := by omega
          rw [hc, nthVal_succ]
        · rw [if_neg (by rintro ⟨_, h1, h2⟩; exact hin ⟨h1, h2⟩),
            if_neg (by rintro ⟨_, h1, h2⟩; exact hin ⟨by omega, by omega⟩)]
          simp [writeBuf, hk]
    · rw [if_neg (by rintro ⟨h, _⟩; exact hr h), if_neg (by rintro ⟨h, _⟩; exact hr h)]
      simp [writeBuf, hr]

theorem drawFrom_events {σ α : Type} (normal : σ → α × σ) (i : Nat) :
    ∀ (n k : Nat) (g : σ) (b : Buf α) (evs : List (Event α)),
      (drawFrom normal i k n g b evs).2.2 =
        evs ++ (List.range n).map (fun m => Event.write i (k + m) (nthVal normal g m)) := by
  intro n
  induction n with
  | zero => intro k g b evs; simp [drawFrom]
  | succ n ih =>
    intro k g b evs
    have hstep : (drawFrom normal i k (n + 1) g b evs).2.2 =
        (drawFrom normal i (k + 1) n (normal g).2
          (writeBuf b i k (normal g).1) (evs ++ [Event.write i k (normal g).1])).2.2 := rfl
    rw [hstep, ih, List.range_succ_eq_map]
    simp only [List.map_cons, List.map_map, List.append_assoc, List.singleton_append]
    have h0 : Event.write i (k + 0) (nthVal normal g 0) = Event.write i k (normal g).1 := by
      simp [nthVal, iterState]
    have hfun : ((fun m => Event.write i (k + m) (nthVal normal g m)) ∘ Nat.succ) =
        (fun m => Event.write i (k + 1 + m) (nthVal normal (normal g).2 m)) := by
      funext m
      simp only [Function.comp_apply]
      have hkm : k + Nat.succ m = k + 1 + m := by omega
      rw [hkm, nthVal_succ]
    rw [h0, hfun]

/-! ### Characterization of one functor invocation -/

theorem op_none {σ α : Type} (samples : Nat) (pool : GenPool σ α) (slot i : Nat)
    (vals : Buf α) (h : pool.locked slot = true) :
    generate_random_op samples pool slot i vals = none := by
  simp [generate_random_op, GenPool.get_state, h]

theorem op_spec {σ α : Type} (samples : Nat) (pool : GenPool σ α) (slot i : Nat)
    (vals : Buf α) (hfree : pool.locked slot = false) :
    generate_random_op samples pool slot i vals =
      some (fun r c =>
              if r = i ∧ c < samples
              then some (nthVal pool.normal (pool.states slot) c) else vals r c,
            { pool with
              states := fun j =>
                if j = slot
                then iterState pool.normal samples (pool.states slot)
                else pool.states j },
            Event.acquire slot ::
              ((List.range samples).map
                (fun m => Event.write i m (nthVal pool.normal (pool.states slot) m)) ++
               [Event.release slot])) := by
  unfold generate_random_op GenPool.get_state
  rw [if_neg (by simp [hfree])]
  refine congrArg some ?_
  refine Prod.ext ?_ (Prod.ext ?_ ?_)
  · funext r c
    show (drawFrom pool.normal i 0 samples (pool.states slot) vals []).2.1 r c = _
    rw [drawFrom_buf]
    simp
  · show GenPool.free_state _ slot (drawFrom pool.normal i 0 samples (pool.states slot) vals []).1 = _
    rw [drawFrom_fst]
    refine GenPool.ext rfl rfl ?_
    funext j
    show (if j = slot then false else if j = slot then true else pool.locked j) = pool.locked j
    by_cases hj : j = slot
    · subst hj; simp [hfree]
    · simp [hj]
  · show Event.acquire slot ::
        (drawFrom pool.normal i 0 samples (pool.states slot) vals []).2.2 ++
        [Event.release slot] = _
    rw [drawFrom_events]
    simp

/-! ### One work item as a step on the shared state -/

theorem fillStep_none {σ α : Type} (samples : Nat) (asg : Nat → Nat) (i : Nat)
    (b : Buf α) (p : GenPool σ α) (h : p.locked (asg i) = true) :
    fillStep samples asg i (b, p) = none := by
  have hop := op_none samples p (asg i) i b h
  simp [fillStep, hop]

theorem fillStep_spec {σ α : Type} (samples : Nat) (asg : Nat → Nat) (i : Nat)
    (b : Buf α) (p : GenPool σ α) (hfree : p.locked (asg i) = false) :
    fillStep samples asg i (b, p) =
      some (fun r c =>
              if r = i ∧ c < samples
              then some (nthVal p.normal (p.states (asg i)) c) else b r c,
            { p with
              states := fun j =>
                if j = asg i
                then iterState p.normal samples (p.states (asg i))
                else p.states j }) := by
  have hop := op_spec samples p (asg i) i b hfree
  simp [fillStep, hop]

theorem fillStep_some_free {σ α : Type} (samples : Nat) (asg : Nat → Nat) (i : Nat)
    (b : Buf α) (p : GenPool σ α) (st1 : Buf α × GenPool σ α)
    (h : fillStep samples asg i (b, p) = some st1) :
    p.locked (asg i) = false := by
  cases hl : p.locked (asg i) with
  | false => rfl
  | true =>
    rw [fillStep_none samples asg i b p hl] at h
    exact Option.noConfusion h

/-! ### One full parallel fill from an all-free pool -/

theorem seqFill_free_spec {σ α : Type} (samples : Nat) (asg : Nat → Nat) :
    ∀ (idxs : List Nat) (b : Buf α) (p : GenPool σ α),
      (∀ j, p.locked j = false) →
      ∃ b' p', seqFill samples asg idxs (b, p) = some (b', p') ∧
        (∀ j, p'.locked j = false) ∧
        (∀ r c, r ∈ idxs → c < samples → (b' r c).isSome = true) ∧
        (∀ r c, r ∉ idxs → b' r c = b r c) ∧
        (∀ r c, samples ≤ c → b' r c = b r c) := by
  intro idxs
  induction idxs with
  | nil =>
    intro b p hfree
    exact ⟨b, p, rfl, hfree, by simp, fun r c _ => rfl, fun r c _ => rfl⟩
  | cons i rest ih =>
    intro b p hfree
    have hstep := fillStep_spec samples asg i b p (hfree (asg i))
    obtain ⟨b', p', hrun, hfree', hpop, hframe, hcol⟩ :=
      ih (fun r c =>
            if r = i ∧ c < samples
            then some (nthVal p.normal (p.states (asg i)) c) else b r c)
        { p with
          states := fun j =>
            if j = asg i
            then iterState p.normal samples (p.states (asg i))
            else p.states j }
        (fun j => hfree j)
    refine ⟨b', p', ?_, hfree', ?_, ?_, ?_⟩
    · show (fillStep samples asg i (b, p)).bind (seqFill samples asg rest) = some (b', p')
      rw [hstep]
      exact hrun
    · intro r c hr hc
      rcases List.mem_cons.mp hr with hri | hrr
      · by_cases hmem : r ∈ rest
        · exact hpop r c hmem hc
        · rw [hframe r c hmem, if_pos ⟨hri, hc⟩]
          rfl
      · exact hpop r c hrr hc
    · intro r c hr
      have hri : r ≠ i := fun h => hr (h ▸ List.mem_cons_self i rest)
      have hrr : r ∉ rest := fun h => hr (List.mem_cons_of_mem i h)
      rw [hframe r c hrr, if_neg (fun h => hri h.1)]
    · intro r c hc
      rw [hcol r c hc, if_neg (fun h => by omega)]

theorem seqFill_frame {σ α : Type} (samples : Nat) (asg : Nat → Nat) :
    ∀ (idxs : List Nat) (b : Buf α) (p : GenPool σ α) (o : Buf α × GenPool σ α),
      seqFill samples asg idxs (b, p) = some o →
      ∀ r c, r ∉ idxs ∨ samples ≤ c → o.1 r c = b r c := by
  intro idxs
  induction idxs with
  | nil =>
    intro b p o h r c _
    cases h
    rfl
  | cons i rest ih =>
    intro b p o h r c hrc
    have hfree : p.locked (asg i) = false := by
      cases hl : p.locked (asg i) with
      | false => rfl
      | true =>
        rw [show seqFill samples asg (i :: rest) (b, p) =
              (fillStep samples asg i (b, p)).bind (seqFill samples asg rest) from rfl,
          fillStep_none samples asg i b p hl] at h
        exact Option.noConfusion h
    have hstep := fillStep_spec samples asg i b p hfree
    rw [show seqFill samples asg (i :: rest) (b, p) =
          (fillStep samples asg i (b, p)).bind (seqFill samples asg rest) from rfl,
      hstep] at h
    have hrest : r ∉ rest ∨ samples ≤ c := by
      rcases hrc with hr | hc
      · exact Or.inl (fun hm => hr (List.mem_cons_of_mem i hm))
      · exact Or.inr hc
    have := ih _ _ o h r c hrest
    rw [this]
    rcases hrc with hr | hc
    · rw [if_neg (fun hh : r = i ∧ c < samples => hr (hh.1 ▸ List.mem_cons_self i rest))]
    · rw [if_neg (fun hh : r = i ∧ c < samples => by omega)]

/-! ### Work items with distinct slots commute -/

theorem fillStep_comm {σ α : Type} (samples : Nat) (asg : Nat → Nat) (i1 i2 : Nat)
    (hslot : asg i1 ≠ asg i2) (st : Buf α × GenPool σ α) :
    (fillStep samples asg i1 st).bind (fillStep samples asg i2) =
      (fillStep samples asg i2 st).bind (fillStep samples asg i1) := by
  obtain ⟨b, p⟩ := st
  have hne : i1 ≠ i2 := fun h => hslot (congrArg asg h)
  cases h1 : p.locked (asg i1) with
  | true =>
    cases h2 : p.locked (asg i2) with
    | true =>
      rw [fillStep_none samples asg i1 b p h1, fillStep_none samples asg i2 b p h2]
      rfl
    | false =>
      rw [fillStep_none samples asg i1 b p h1, fillStep_spec samples asg i2 b p h2]
      refine Eq.symm (fillStep_none samples asg i1 _ _ ?_)
      exact h1
  | false =>
    cases h2 : p.locked (asg i2) with
    | true =>
      rw [fillStep_none samples asg i2 b p h2, fillStep_spec samples asg i1 b p h1]
      refine (fillStep_none samples asg i2 _ _ ?_)
      exact h2
    | false =>
      have e1 := fillStep_spec samples asg i1 b p h1
      have e2 := fillStep_spec samples asg i2 b p h2
      have e12 := fillStep_spec samples asg i2
        (fun r c =>
          if r = i1 ∧ c < samples
          then some (nthVal p.normal (p.states (asg i1)) c) else b r c)
        { p with
          states := fun j =>
            if j = asg i1
            then iterState p.normal samples (p.states (asg i1))
            else p.states j }
        h2
      have e21 := fillStep_spec samples asg i1
        (fun r c =>
          if r = i2 ∧ c < samples
          then some (nthVal p.normal (p.states (asg i2)) c) else b r c)
        { p with
          states := fun j =>
            if j = asg i2
            then iterState p.normal samples (p.states (asg i2))
            else p.states j }
        h1
      rw [e1, e2]
      show fillStep samples asg i2 _ = fillStep samples asg i1 _
      rw [e12, e21]
      refine congrArg some (Prod.ext ?_ ?_)
      · funext r c
        dsimp only
        rw [if_neg (fun h : asg i2 = asg i1 => hslot h.symm),
          if_neg (fun h : asg i1 = asg i2 => hslot h)]
        split_ifs <;> first | rfl | omega
      · refine GenPool.ext rfl ?_ rfl
        funext j
        dsimp only
        rw [if_neg (fun h : asg i2 = asg i1 => hslot h.symm),
          if_neg (fun h : asg i1 = asg i2 => hslot h)]
        split_ifs <;> first | rfl | omega

theorem seqFill_perm {σ α : Type} (samples : Nat) (asg : Nat → Nat) :
    ∀ {l1 l2 : List Nat}, l1.Perm l2 →
      l1.Pairwise (fun a b => asg a ≠ asg b) →
      ∀ st : Buf α × GenPool σ α,
        seqFill samples asg l1 st = seqFill samples asg l2 st := by
  intro l1 l2 hperm
  induction hperm with
  | nil => intro _ st; rfl
  | cons x p ih =>
    intro hp st
    have hp' := (List.pairwise_cons.mp hp).2
    show (fillStep samples asg x st).bind _ = (fillStep samples asg x st).bind _
    cases h : fillStep samples asg x st with
    | none => rfl
    | some st1 => exact ih hp' st1
  | swap x y l =>
    intro hp st
    have hxy : asg y ≠ asg x :=
      (List.pairwise_cons.mp hp).1 x (List.mem_cons_self x l)
    show ((fillStep samples asg y st).bind fun s =>
            (fillStep samples asg x s).bind (seqFill samples asg l)) =
         ((fillStep samples asg x st).bind fun s =>
            (fillStep samples asg y s).bind (seqFill samples asg l))
    rw [← Option.bind_assoc, ← Option.bind_assoc,
      fillStep_comm samples asg y x hxy st]
  | trans p1 p2 ih1 ih2 =>
    intro hp st
    have hp2 := (p1.pairwise_iff (fun h e => h e.symm)).mp hp
    exact (ih1 hp st).trans (ih2 hp2 st)

/-! ### The in-range contents of a fill are determined by the pool alone -/

theorem seqFill_buf_indep {σ α : Type} (samples : Nat) (asg : Nat → Nat) :
    ∀ (idxs : List Nat) (b1 b2 : Buf α) (p : GenPool σ α) (o1 : Buf α × GenPool σ α),
      seqFill samples asg idxs (b1, p) = some o1 →
      ∃ o2, seqFill samples asg idxs (b2, p) = some o2 ∧ o1.2 = o2.2 ∧
        ∀ r c, r ∈ idxs → c < samples → o1.1 r c = o2.1 r c := by
  intro idxs
  induction idxs with
  | nil =>
    intro b1 b2 p o1 h
    cases h
    exact ⟨(b2, p), rfl, rfl, by simp⟩
  | cons i rest ih =>
    intro b1 b2 p o1 h
    have hfree : p.locked (asg i) = false := by
      cases hl : p.locked (asg i) with
      | false => rfl
      | true =>
        rw [show seqFill samples asg (i :: rest) (b1, p) =
              (fillStep samples asg i (b1, p)).bind (seqFill samples asg rest) from rfl,
          fillStep_none samples asg i b1 p hl] at h
        exact Option.noConfusion h
    have e1 := fillStep_spec samples asg i b1 p hfree
    have e2 := fillStep_spec samples asg i b2 p hfree
    rw [show seqFill samples asg (i :: rest) (b1, p) =
          (fillStep samples asg i (b1, p)).bind (seqFill samples asg rest) from rfl,
      e1, Option.some_bind] at h
    obtain ⟨o2, ho2, hpool, hcells⟩ := ih _
      (fun r c =>
        if r = i ∧ c < samples
        then some (nthVal p.normal (p.states (asg i)) c) else b2 r c) _ o1 h
    refine ⟨o2, ?_, hpool, ?_⟩
    · rw [show seqFill samples asg (i :: rest) (b2, p) =
          (fillStep samples asg i (b2, p)).bind (seqFill samples asg rest) from rfl,
        e2, Option.some_bind]
      exact ho2
    · intro r c hr hc
      rcases List.mem_cons.mp hr with hri | hrr
      · by_cases hmem : r ∈ rest
        · exact hcells r c hmem hc
        · have f1 := seqFill_frame samples asg rest _ _ o1 h r c (Or.inl hmem)
          have f2 := seqFill_frame samples asg rest _ _ o2 ho2 r c (Or.inl hmem)
          rw [f1, f2, if_pos ⟨hri, hc⟩, if_pos ⟨hri, hc⟩]
      · exact hcells r c hrr hc

/-! ### Lifting to the fills of `main` -/

theorem fill64_total {σ τ α : Type} (samples size : Nat) (asg : Nat → Nat)
    (st : MainSt σ τ α) (hf : ∀ j, st.pool64.locked j = false) :
    ∃ o, fill64 samples size asg st = some o ∧
      (∀ j, o.pool64.locked j = false) ∧ o.pool1024 = st.pool1024 := by
  obtain ⟨b', p', hrun, hfree', _, _, _⟩ :=
    seqFill_free_spec samples asg (List.range size) st.buf st.pool64 hf
  refine ⟨{ st with buf := b', pool64 := p' }, ?_, hfree', rfl⟩
  unfold fill64
  rw [hrun]
  rfl

theorem fill1024_total {σ τ α : Type} (samples size : Nat) (asg : Nat → Nat)
    (st : MainSt σ τ α) (hf : ∀ j, st.pool1024.locked j = false) :
    ∃ o, fill1024 samples size asg st = some o ∧
      (∀ j, o.pool1024.locked j = false) ∧ o.pool64 = st.pool64 := by
  obtain ⟨b', p', hrun, hfree', _, _, _⟩ :=
    seqFill_free_spec samples asg (List.range size) st.buf st.pool1024 hf
  refine ⟨{ st with buf := b', pool1024 := p' }, ?_, hfree', rfl⟩
  unfold fill1024
  rw [hrun]
  rfl

theorem fill64_indep {σ τ α : Type} (samples size : Nat) (asg : Nat → Nat)
    (st st' : MainSt σ τ α) (h64 : st.pool64 = st'.pool64)
    (h1024 : st.pool1024 = st'.pool1024) (o : MainSt σ τ α)
    (h : fill64 samples size asg st = some o) :
    ∃ o', fill64 samples size asg st' = some o' ∧ o.pool64 = o'.pool64 ∧
      o.pool1024 = o'.pool1024 ∧
      ∀ r c, r < size → c < samples → o.buf r c = o'.buf r c := by
  unfold fill64 at h ⊢
  cases hs : seqFill samples asg (List.range size) (st.buf, st.pool64) with
  | none => rw [hs] at h; exact Option.noConfusion h
  | some o0 =>
    rw [hs] at h
    injection h with h
    subst h
    obtain ⟨o0', hs', hpool, hcells⟩ :=
      seqFill_buf_indep samples asg (List.range size) st.buf st'.buf st.pool64 o0 hs
    rw [← h64]
    refine ⟨{ st' with buf := o0'.1, pool64 := o0'.2 }, ?_, hpool, h1024, ?_⟩
    · rw [hs']
      rfl
    · intro r c hr hc
      exact hcells r c (List.mem_range.mpr hr) hc

theorem fill1024_indep {σ τ α : Type} (samples size : Nat) (asg : Nat → Nat)
    (st st' : MainSt σ τ α) (h64 : st.pool64 = st'.pool64)
    (h1024 : st.pool1024 = st'.pool1024) (o : MainSt σ τ α)
    (h : fill1024 samples size asg st = some o) :
    ∃ o', fill1024 samples size asg st' = some o' ∧ o.pool64 = o'.pool64 ∧
      o.pool1024 = o'.pool1024 ∧
      ∀ r c, r < size → c < samples → o.buf r c = o'.buf r c := by
  unfold fill1024 at h ⊢
  cases hs : seqFill samples asg (List.range size) (st.buf, st.pool1024) with
  | none => rw [hs] at h; exact Option.noConfusion h
  | some o0 =>
    rw [hs] at h
    injection h with h
    subst h
    obtain ⟨o0', hs', hpool, hcells⟩ :=
      seqFill_buf_indep samples asg (List.range size) st.buf st'.buf st.pool1024 o0 hs
    rw [← h1024]
    refine ⟨{ st' with buf := o0'.1, pool1024 := o0'.2 }, ?_, h64, hpool, ?_⟩
    · rw [hs']
      rfl
    · intro r c hr hc
      exact hcells r c (List.mem_range.mpr hr) hc

theorem mainBufferRun_total {σ τ α : Type} (samples size : Nat) (asg : Nat → Nat)
    (st : MainSt σ τ α) (hf64 : ∀ j, st.pool64.locked j = false)
    (hf1024 : ∀ j, st.pool1024.locked j = false) :
    ∃ out, mainBufferRun samples size asg st = some out := by
  obtain ⟨o1, e1, f1, q1⟩ := fill64_total samples size asg st hf64
  obtain ⟨o2, e2, f2, q2⟩ := fill64_total samples size asg o1 f1
  obtain ⟨o3, e3, f3, q3⟩ := fill64_total samples size asg o2 f2
  obtain ⟨o4, e4, f4, q4⟩ := fill64_total samples size asg o3 f3
  obtain ⟨o5, e5, f5, q5⟩ := fill64_total samples size asg o4 f4
  obtain ⟨o6, e6, f6, q6⟩ := fill64_total samples size asg o5 f5
  have hq6 : ∀ j, o6.pool1024.locked j = false := by
    rw [q6, q5, q4, q3, q2, q1]
    exact hf1024
  obtain ⟨o7, e7, f7, q7⟩ := fill1024_total samples size asg o6 hq6
  obtain ⟨o8, e8, f8, q8⟩ := fill1024_total samples size asg o7 f7
  refine ⟨o8, ?_⟩
  unfold mainBufferRun firstSevenFills
  rw [e1, Option.some_bind, e2, Option.some_bind, e3, Option.some_bind,
    e4, Option.some_bind, e5, Option.some_bind, e6, Option.some_bind,
    e7, Option.some_bind, e8]

theorem mainBufferRun_indep {σ τ α : Type} (samples size : Nat) (asg : Nat → Nat)
    (st st' : MainSt σ τ α) (h64 : st.pool64 = st'.pool64)
    (h1024 : st.pool1024 = st'.pool1024) (out : MainSt σ τ α)
    (h : mainBufferRun samples size asg st = some out) :
    ∃ out', mainBufferRun samples size asg st' = some out' ∧
      ∀ r c, r < size → c < samples → out.buf r c = out'.buf r c := by
  unfold mainBufferRun firstSevenFills at h
  obtain ⟨m7, h7, s8⟩ := Option.bind_eq_some.mp h
  obtain ⟨m6, h6, s7⟩ := Option.bind_eq_some.mp h7
  obtain ⟨m5, h5, s6⟩ := Option.bind_eq_some.mp h6
  obtain ⟨m4, h4, s5⟩ := Option.bind_eq_some.mp h5
  obtain ⟨m3, h3, s4⟩ := Option.bind_eq_some.mp h4
  obtain ⟨m2, h2, s3⟩ := Option.bind_eq_some.mp h3
  obtain ⟨m1, s1, s2⟩ := Option.bind_eq_some.mp h2
  obtain ⟨n1, t1, a1, b1, _⟩ := fill64_indep samples size asg st st' h64 h1024 m1 s1
  obtain ⟨n2, t2, a2, b2, _⟩ := fill64_indep samples size asg m1 n1 a1 b1 m2 s2
  obtain ⟨n3, t3, a3, b3, _⟩ := fill64_indep samples size asg m2 n2 a2 b2 m3 s3
  obtain ⟨n4, t4, a4, b4, _⟩ := fill64_indep samples size asg m3 n3 a3 b3 m4 s4
  obtain ⟨n5, t5, a5, b5, _⟩ := fill64_indep samples size asg m4 n4 a4 b4 m5 s5
  obtain ⟨n6, t6, a6, b6, _⟩ := fill64_indep samples size asg m5 n5 a5 b5 m6 s6
  obtain ⟨n7, t7, a7, b7, _⟩ := fill1024_indep samples size asg m6 n6 a6 b6 m7 s7
  obtain ⟨out', t8, _, _, agree⟩ := fill1024_indep samples size asg m7 n7 a7 b7 out s8
  refine ⟨out', ?_, agree⟩
  unfold mainBufferRun firstSevenFills
  rw [t1, Option.some_bind, t2, Option.some_bind, t3, Option.some_bind,
    t4, Option.some_bind, t5, Option.some_bind, t6, Option.some_bind,
    t7, Option.some_bind, t8]

theorem op_some_free {σ α : Type} (samples : Nat) (pool : GenPool σ α)
    (slot i : Nat) (vals : Buf α) (t : Buf α × GenPool σ α × List (Event α))
    (h : generate_random_op samples pool slot i vals = some t) :
    pool.locked slot = false := by
  cases hl : pool.locked slot with
  | false => rfl
  | true =>
    rw [op_none samples pool slot i vals hl] at h
    exact Option.noConfusion h

/-- C1: for every work index `i`, one invocation of the fill task acquires exactly one
generator state from the supplied pool, draws exactly `samples` values storing them at
positions `(i, 0)` through `(i, samples - 1)` of the output buffer, and then releases
that same state back to the pool. -/
theorem claim1_acquire_draw_release {σ α : Type} (samples : Nat)
    (pool : GenPool σ α) (slot i : Nat) (vals : Buf α)
    (hfree : pool.locked slot = false) :
    ∃ b' p' tr, generate_random_op samples pool slot i vals = some (b', p', tr) ∧
      tr.countP Event.isAcquire = 1 ∧
      tr.countP Event.isRelease = 1 ∧
      tr.head? = some (Event.acquire slot) ∧
      tr.getLast? = some (Event.release slot) ∧
      tr.countP Event.isWrite = samples ∧
      writeCells tr = (List.range samples).map (fun k => (i, k)) ∧
      (∀ k, k < samples → b' i k = some (nthVal pool.normal (pool.states slot) k)) := by
  refine ⟨_, _, _, op_spec samples pool slot i vals hfree, ?_, ?_, rfl, ?_, ?_, ?_, ?_⟩
  · simp [List.countP_cons, List.countP_append, List.countP_map, Function.comp,
      Event.isAcquire, Event.isRelease, List.countP_eq_zero]
  · simp [List.countP_cons, List.countP_append, List.countP_map, Function.comp,
      Event.isAcquire, Event.isRelease, List.countP_eq_zero]
  · show ((Event.acquire slot ::
        (List.range samples).map
          (fun m => Event.write i m (nthVal pool.normal (pool.states slot) m))) ++
        [Event.release slot]).getLast? = some (Event.release slot)
    exact List.getLast?_concat _
  · simp only [List.countP_cons, List.countP_append, List.countP_map]
    have hfn : (Event.isWrite ∘
        fun m => Event.write i m (nthVal pool.normal (pool.states slot) m)) =
        fun _ : Nat => true := funext fun m => rfl
    simp [hfn, Event.isWrite, Event.isAcquire, Event.isRelease]
  · simp only [writeCells, List.filterMap_cons, List.filterMap_append,
      List.filterMap_map]
    have hfn : (cellOf ∘
        fun m => Event.write i m (nthVal pool.normal (pool.states slot) m)) =
        some ∘ (fun m : Nat => (i, m)) := funext fun m => rfl
    rw [hfn, List.filterMap_eq_map]
    simp [cellOf]
  · intro k hk
    show (if i = i ∧ k < samples
          then some (nthVal pool.normal (pool.states slot) k) else vals i k) = _
    rw [if_pos ⟨rfl, hk⟩]

theorem writeCells_trace {α : Type} (slot i samples : Nat) (vs : Nat → α) :
    writeCells (Event.acquire slot ::
      ((List.range samples).map (fun m => Event.write i m (vs m)) ++
       [Event.release slot])) = (List.range samples).map (fun k => (i, k)) := by
  simp only [writeCells, List.filterMap_cons, List.filterMap_append, List.filterMap_map]
  have hfn : (cellOf ∘ fun m => Event.write i m (vs m)) =
      some ∘ (fun m : Nat => (i, m)) := funext fun m => rfl
  rw [hfn, List.filterMap_eq_map]
  simp [cellOf]

theorem op_writeCells_row {σ α : Type} (samples : Nat) (pool : GenPool σ α)
    (slot i : Nat) (vals : Buf α) (t : Buf α × GenPool σ α × List (Event α))
    (h : generate_random_op samples pool slot i vals = some t) :
    ∀ q ∈ writeCells t.2.2, q.1 = i := by
  have hfree := op_some_free samples pool slot i vals t h
  rw [op_spec samples pool slot i vals hfree] at h
  injection h with h
  subst h
  intro q hq
  rw [show ((fun r c =>
        if r = i ∧ c < samples
        then some (nthVal pool.normal (pool.states slot) c) else vals r c,
      { pool with
        states := fun j =>
          if j = slot
          then iterState pool.normal samples (pool.states slot)
          else pool.states j },
      Event.acquire slot ::
        ((List.range samples).map
          (fun m => Event.write i m (nthVal pool.normal (pool.states slot) m)) ++
         [Event.release slot])) :
      Buf α × GenPool σ α × List (Event α)).2.2 =
      Event.acquire slot ::
        ((List.range samples).map
          (fun m => Event.write i m (nthVal pool.normal (pool.states slot) m)) ++
         [Event.release slot]) from rfl,
    writeCells_trace slot i samples
      (fun m => nthVal pool.normal (pool.states slot) m)] at hq
  obtain ⟨m, _, rfl⟩ := List.mem_map.mp hq
  rfl

/-- C2: each fill task invocation writes only to entries of its own row `i`; the
entries outside row `i` are left unchanged, and for two distinct work indices the
written cell sets are disjoint. -/
theorem claim2_disjoint_row_ownership {σ α : Type} (samples : Nat)
    (pool : GenPool σ α) (slot i : Nat) (vals : Buf α)
    (hfree : pool.locked slot = false) :
    ∃ b' p' tr, generate_random_op samples pool slot i vals = some (b', p', tr) ∧
      (∀ r c, r ≠ i → b' r c = vals r c) ∧
      (∀ q ∈ writeCells tr, q.1 = i) ∧
      (∀ (σ2 α2 : Type) (j : Nat), j ≠ i →
        ∀ (samples2 : Nat) (pool2 : GenPool σ2 α2) (slot2 : Nat) (vals2 : Buf α2)
          (t2 : Buf α2 × GenPool σ2 α2 × List (Event α2)),
          generate_random_op samples2 pool2 slot2 j vals2 = some t2 →
          ∀ q, q ∈ writeCells tr → q ∉ writeCells t2.2.2) := by
  refine ⟨_, _, _, op_spec samples pool slot i vals hfree, ?_, ?_, ?_⟩
  · intro r c hr
    show (if r = i ∧ c < samples
          then some (nthVal pool.normal (pool.states slot) c) else vals r c) = vals r c
    rw [if_neg (fun hh : r = i ∧ c < samples => hr hh.1)]
  · exact fun q hq =>
      op_writeCells_row samples pool slot i vals _
        (op_spec samples pool slot i vals hfree) q hq
  · intro σ2 α2 j hj samples2 pool2 slot2 vals2 t2 h2 q hq hq2
    have hrow1 : q.1 = i :=
      op_writeCells_row samples pool slot i vals _
        (op_spec samples pool slot i vals hfree) q hq
    have hrow2 : q.1 = j := op_writeCells_row samples2 pool2 slot2 j vals2 t2 h2 q hq2
    exact hj (hrow2.symm.trans hrow1)

/-- C3: within one work item, acquire and release are exactly paired: the trace is an
acquire of slot `slot`, then only writes, then a release of the same slot; the
released pool leaves the slot unheld; a state that is held (locked) can never be
returned by `get_state` to another task, and a successful `get_state` marks the slot
as held. -/
theorem claim3_acquire_release_pairing {σ α : Type} (samples : Nat)
    (pool : GenPool σ α) (slot i : Nat) (vals : Buf α)
    (hfree : pool.locked slot = false) :
    (∃ b' p' mid, generate_random_op samples pool slot i vals =
        some (b', p', Event.acquire slot :: mid ++ [Event.release slot]) ∧
      (∀ e ∈ mid, Event.isWrite e = true) ∧
      p'.locked slot = false) ∧
    (∀ (q : GenPool σ α) (j : Nat), q.locked j = true → q.get_state j = none) ∧
    (∀ (g : σ) (q' : GenPool σ α), pool.get_state slot = some (g, q') →
      q'.locked slot = true) := by
  refine ⟨⟨_, _, _, op_spec samples pool slot i vals hfree, ?_, ?_⟩, ?_, ?_⟩
  · intro e he
    obtain ⟨m, _, rfl⟩ := List.mem_map.mp he
    rfl
  · exact hfree
  · intro q j hq
    simp [GenPool.get_state, hq]
  · intro g q' h
    unfold GenPool.get_state at h
    rw [if_neg (by simp [hfree])] at h
    injection h with h
    rw [Prod.mk.injEq] at h
    rw [← h.2]
    show (if slot = slot then true else pool.locked slot) = true
    rw [if_pos rfl]

/-- C4: with any argument count other than exactly two positional arguments
(`argc ≠ 3`), `main` prints the usage string and performs no computation: no buffer
allocation, no pool construction, no fill launch, no timing line; it terminates
normally with exit code 0. -/
theorem claim4_usage_path (argc rows cols : Nat) (h : argc ≠ 3) :
    mainTrace argc rows cols =
      [MainEvent.initK, MainEvent.printUsage, MainEvent.finalizeK] ∧
    (∀ r c, MainEvent.allocView r c ∉ mainTrace argc rows cols) ∧
    (∀ k s, MainEvent.mkPool k s ∉ mainTrace argc rows cols) ∧
    (∀ k, MainEvent.launchFill k ∉ mainTrace argc rows cols) ∧
    (∀ k, MainEvent.printTime k ∉ mainTrace argc rows cols) ∧
    (∀ k, MainEvent.timerSeconds k ∉ mainTrace argc rows cols) ∧
    mainExit argc = 0 := by
  have htr : mainTrace argc rows cols =
      [MainEvent.initK, MainEvent.printUsage, MainEvent.finalizeK] := by
    unfold mainTrace
    rw [if_neg h]
    rfl
  rw [htr]
  refine ⟨rfl, ?_, ?_, ?_, ?_, ?_, rfl⟩ <;> intros <;> simp

/-- C5: for all `rows > 0` and `samples > 0`, after one complete parallel fill every
one of the `rows * samples` entries of the output buffer has been written (no entry
remains at the uninitialized sentinel `none`). -/
theorem claim5_full_population {σ α : Type} (samples size : Nat) (asg : Nat → Nat)
    (p : GenPool σ α) (vals : Buf α)
    (hrows : 0 < size) (hsamples : 0 < samples)
    (hfree : ∀ j, p.locked j = false) :
    ∃ o, seqFill samples asg (List.range size) (vals, p) = some o ∧
      ∀ r c, r < size → c < samples → (o.1 r c).isSome = true := by
  obtain ⟨b', p', hrun, _, hpop, _, _⟩ :=
    seqFill_free_spec samples asg (List.range size) vals p hfree
  exact ⟨(b', p'), hrun, fun r c hr hc => hpop r c (List.mem_range.mpr hr) hc⟩

/-- C6: with a fixed, non-contention-based worker partition (each work index owns its
pool slot, distinct indices using distinct slots) and the same fixed pool seed
(initial state), two runs of the parallel fill over the same set of work items — in
whatever order the scheduler executes them — produce bit-identical buffer contents
and pool states. -/
theorem claim6_fixed_partition_determinism {σ α : Type} (samples : Nat)
    (asg : Nat → Nat) (run1 run2 : List Nat) (st : Buf α × GenPool σ α)
    (hperm : run1.Perm run2)
    (hdistinct : run1.Pairwise (fun a b => asg a ≠ asg b)) :
    seqFill samples asg run1 st = seqFill samples asg run2 st :=
  seqFill_perm samples asg hperm hdistinct st

/-- C7 (counterexample): at `rows = 10`, `cols = 2` the order claimed by the spec does
not hold of the code's trace: the code constructs both generator pools before it
allocates the output buffer, and it runs two fills (not one) with the 1024-bit
pool. -/
theorem claim7_counterexample : ¬ ClaimedOrderC7 10 2 := by
  unfold ClaimedOrderC7
  decide

/-- C7 (amended): on the valid-arguments path the program performs, in this order:
environment initialization, parsing of the two integers, construction of the two
generator pools (64-bit, then 1024-bit), allocation of the output buffer, exactly
five untimed warm-up fills with the 64-bit pool before the first timer reset (six
64-bit fills in total, the sixth timed), two fills with the 1024-bit pool (one
untimed, one timed), and finally teardown. -/
theorem claim7_amended_order (rows cols : Nat) : AmendedOrderC7 rows cols := by
  unfold AmendedOrderC7
  have e1 : List.findIdx MainEvent.isParse2 (mainTrace 3 rows cols) = 3 := rfl
  have e2 : List.findIdx MainEvent.isMk64 (mainTrace 3 rows cols) = 4 := rfl
  have e3 : List.findIdx MainEvent.isMk1024 (mainTrace 3 rows cols) = 5 := rfl
  have e4 : List.findIdx MainEvent.isAlloc (mainTrace 3 rows cols) = 6 := rfl
  have e5 : List.findIdx MainEvent.isFill64 (mainTrace 3 rows cols) = 7 := rfl
  exact ⟨rfl, by omega, by omega, by omega, by omega, rfl, rfl, rfl, rfl⟩

/-- C8: on the valid-arguments path the program writes exactly three human-readable
lines to standard output: the execution backend's name, then
`Time 64: <seconds>`, then `Time 1024: <seconds>`. -/
theorem claim8_stdout_lines (name t64 t1024 : String) (rows cols : Nat) :
    stdoutLines name t64 t1024 (mainTrace 3 rows cols) =
      ["Exec space: " ++ name, "Time 64: " ++ t64, "Time 1024: " ++ t1024] ∧
    (stdoutLines name t64 t1024 (mainTrace 3 rows cols)).length = 3 := by
  exact ⟨rfl, rfl⟩

/-- C9: the exit code of `main` is 0 on every terminating path, including the
wrong-argument-count path, and the runtime teardown (`Kokkos::finalize`) is the last
step on both paths. -/
theorem claim9_exit_and_teardown (argc rows cols : Nat) :
    mainExit argc = 0 ∧
    (mainTrace argc rows cols).getLast? = some MainEvent.finalizeK := by
  refine ⟨rfl, ?_⟩
  by_cases h : argc = 3
  · subst h
    rfl
  · unfold mainTrace
    rw [if_neg h]
    rfl

/-- C10: before the timed 1024-bit fill, `main` runs exactly one additional untimed
fill with the 1024-bit pool (so two 1024-bit fills in total), and the timer is reset
only after that untimed fill's fence, so the recorded 1024-bit time excludes it.  All
eight fills write into the one shared buffer in program order (the run is the first
seven fills followed by the timed 1024-bit fill), and the final in-range contents of
the buffer are those produced by the last fill: they do not depend on the initial
buffer contents, only on the pools. -/
theorem claim10_extra_fill_and_last_write {σ τ α : Type}
    (rows cols samples size : Nat) (asg : Nat → Nat) (st st' : MainSt σ τ α)
    (h64 : st.pool64 = st'.pool64) (h1024 : st.pool1024 = st'.pool1024)
    (hf64 : ∀ j, st.pool64.locked j = false)
    (hf1024 : ∀ j, st.pool1024.locked j = false) :
    (mainTrace 3 rows cols).drop 20 =
      [MainEvent.timerSeconds PoolKind.p64,
       MainEvent.launchFill PoolKind.p1024, MainEvent.fence,
       MainEvent.timerReset,
       MainEvent.launchFill PoolKind.p1024, MainEvent.fence,
       MainEvent.timerSeconds PoolKind.p1024,
       MainEvent.printTime PoolKind.p64, MainEvent.printTime PoolKind.p1024,
       MainEvent.finalizeK] ∧
    (mainTrace 3 rows cols).countP MainEvent.isFill1024 = 2 ∧
    (∀ s : MainSt σ τ α, mainBufferRun samples size asg s =
        (firstSevenFills samples size asg s).bind (fill1024 samples size asg)) ∧
    ∃ out out', mainBufferRun samples size asg st = some out ∧
      mainBufferRun samples size asg st' = some out' ∧
      ∀ r c, r < size → c < samples → out.buf r c = out'.buf r c := by
  refine ⟨rfl, rfl, fun s => rfl, ?_⟩
  obtain ⟨out, hout⟩ := mainBufferRun_total samples size asg st hf64 hf1024
  obtain ⟨out', hout', agree⟩ :=
    mainBufferRun_indep samples size asg st st' h64 h1024 out hout
  exact ⟨out, out', hout, hout', agree⟩

/-- Witness for C1 at `samples = 2`, `slot = 0`, `i = 0` on the concrete pool. -/
theorem claim1_witness :
    ∃ b' p' tr, generate_random_op 2 demoPool 0 0 demoBuf = some (b', p', tr) ∧
      tr.countP Event.isAcquire = 1 ∧
      tr.countP Event.isRelease = 1 ∧
      tr.head? = some (Event.acquire 0) ∧
      tr.getLast? = some (Event.release 0) ∧
      tr.countP Event.isWrite = 2 ∧
      writeCells tr = (List.range 2).map (fun k => (0, k)) ∧
      (∀ k, k < 2 → b' 0 k = some (nthVal demoPool.normal (demoPool.states 0) k)) :=
  claim1_acquire_draw_release 2 demoPool 0 0 demoBuf rfl

/-- Witness for C2 at `samples = 2`, `slot = 0`, `i = 1` on the concrete pool. -/
theorem claim2_witness :
    ∃ b' p' tr, generate_random_op 2 demoPool 0 1 demoBuf = some (b', p', tr) ∧
      (∀ r c, r ≠ 1 → b' r c = demoBuf r c) ∧
      (∀ q ∈ writeCells tr, q.1 = 1) ∧
      (∀ (σ2 α2 : Type) (j : Nat), j ≠ 1 →
        ∀ (samples2 : Nat) (pool2 : GenPool σ2 α2) (slot2 : Nat) (vals2 : Buf α2)
          (t2 : Buf α2 × GenPool σ2 α2 × List (Event α2)),
          generate_random_op samples2 pool2 slot2 j vals2 = some t2 →
          ∀ q, q ∈ writeCells tr → q ∉ writeCells t2.2.2) :=
  claim2_disjoint_row_ownership 2 demoPool 0 1 demoBuf rfl

/-- Witness for C3 at `samples = 2`, `slot = 0`, `i = 0` on the concrete pool. -/
theorem claim3_witness :
    (∃ b' p' mid, generate_random_op 2 demoPool 0 0 demoBuf =
        some (b', p', Event.acquire 0 :: mid ++ [Event.release 0]) ∧
      (∀ e ∈ mid, Event.isWrite e = true) ∧
      p'.locked 0 = false) ∧
    (∀ (q : GenPool Nat Nat) (j : Nat), q.locked j = true → q.get_state j = none) ∧
    (∀ (g : Nat) (q' : GenPool Nat Nat), demoPool.get_state 0 = some (g, q') →
      q'.locked 0 = true) :=
  claim3_acquire_release_pairing 2 demoPool 0 0 demoBuf rfl

/-- Witness for C4 at `argc = 1`. -/
theorem claim4_witness :
    mainTrace 1 0 0 = [MainEvent.initK, MainEvent.printUsage, MainEvent.finalizeK] ∧
    (∀ r c, MainEvent.allocView r c ∉ mainTrace 1 0 0) ∧
    (∀ k s, MainEvent.mkPool k s ∉ mainTrace 1 0 0) ∧
    (∀ k, MainEvent.launchFill k ∉ mainTrace 1 0 0) ∧
    (∀ k, MainEvent.printTime k ∉ mainTrace 1 0 0) ∧
    (∀ k, MainEvent.timerSeconds k ∉ mainTrace 1 0 0) ∧
    mainExit 1 = 0 :=
  claim4_usage_path 1 0 0 (by decide)

/-- Witness for C5 at `samples = 1`, `size = 2` on the concrete pool and the
all-uninitialized buffer. -/
theorem claim5_witness :
    ∃ o, seqFill 1 (fun n => n) (List.range 2) (demoBuf, demoPool) = some o ∧
      ∀ r c, r < 2 → c < 1 → (o.1 r c).isSome = true :=
  claim5_full_population 1 2 (fun n => n) demoPool demoBuf (by decide) (by decide)
    (fun _ => rfl)

/-- Witness for C6: the runs `[0, 1]` and `[1, 0]` under the identity partition. -/
theorem claim6_witness :
    seqFill 1 (fun n => n) [0, 1] (demoBuf, demoPool) =
      seqFill 1 (fun n => n) [1, 0] (demoBuf, demoPool) :=
  claim6_fixed_partition_determinism 1 (fun n => n) [0, 1] [1, 0]
    (demoBuf, demoPool) (List.Perm.swap 1 0 []) (by decide)

/-- Witness for C10 at `rows = 3`, `cols = 2`, `samples = 1`, `size = 1` on the two
concrete states that differ only in the initial buffer. -/
theorem claim10_witness :
    (mainTrace 3 3 2).drop 20 =
      [MainEvent.timerSeconds PoolKind.p64,
       MainEvent.launchFill PoolKind.p1024, MainEvent.fence,
       MainEvent.timerReset,
       MainEvent.launchFill PoolKind.p1024, MainEvent.fence,
       MainEvent.timerSeconds PoolKind.p1024,
       MainEvent.printTime PoolKind.p64, MainEvent.printTime PoolKind.p1024,
       MainEvent.finalizeK] ∧
    (mainTrace 3 3 2).countP MainEvent.isFill1024 = 2 ∧
    (∀ s : MainSt Nat Nat Nat, mainBufferRun 1 1 (fun n => n) s =
        (firstSevenFills 1 1 (fun n => n) s).bind (fill1024 1 1 (fun n => n))) ∧
    ∃ out out', mainBufferRun 1 1 (fun n => n) demoSt = some out ∧
      mainBufferRun 1 1 (fun n => n) demoSt2 = some out' ∧
      ∀ r c, r < 1 → c < 1 → out.buf r c = out'.buf r c :=
  claim10_extra_fill_and_last_write 3 2 1 1 (fun n => n) demoSt demoSt2 rfl rfl
    (fun _ => rfl) (fun _ => rfl)
